import Mathlib

/-!
Verification of the slsh command-processing pipeline: a shallow embedding of
the tokenizer, parser, validator, alias resolver, dispatcher, job-option
projection and history manager, translated from the Go sources, together
with theorems settling the specification claims.

Go strings are modelled as `List Char` (Go's `for range` iterates runes).
Go `map[string]string` is modelled as an association list without duplicate
keys; `mapInsert` models Go map assignment (replace-or-append), `mapLookup`
models map indexing.  Go map iteration order is unspecified; every theorem
stated over an iteration is order-insensitive.
-/

namespace Slsh

/-- Go strings modelled as rune lists. -/
abbrev GoStr := List Char

/-- Conversion from a Lean string literal to the Go-string model. -/
def gs (s : String) : GoStr := s.data

/-- Go map assignment `m[k] = v`: replace the binding of `k` when present,
append a new binding otherwise.  Keeps the key set duplicate-free. -/
def mapInsert (m : List (GoStr × GoStr)) (k v : GoStr) : List (GoStr × GoStr) :=
  match m with
  | [] => [(k, v)]
  | (k', v') :: rest => if k' = k then (k, v) :: rest else (k', v') :: mapInsert rest k v

/-- Go map lookup `m[k]`. -/
def mapLookup (m : List (GoStr × GoStr)) (k : GoStr) : Option GoStr :=
  match m with
  | [] => none
  | (k', v') :: rest => if k' = k then some v' else mapLookup rest k

/-- Model of `slurm.Command`: a parsed invocation (name, positional args, option map). -/
structure Command where
  Name : GoStr
  Args : List GoStr
  Options : List (GoStr × GoStr)
deriving DecidableEq

/-- Go `unicode.IsSpace`, the character class `strings.TrimSpace` trims:
the Unicode White_Space property — `\t`, `\n`, `\v`, `\f`, `\r`, space,
U+0085 and U+00A0 in Latin-1, plus U+1680, U+2000-U+200A, U+2028, U+2029,
U+202F, U+205F and U+3000. -/
def isGoSpace (c : Char) : Bool :=
  c = ' ' || c = '\t' || c = '\n' || c = '\x0b' || c = '\x0c' || c = '\r' ||
  c = '\u0085' || c = '\u00A0' || c = '\u1680' ||
  ('\u2000' ≤ c && c ≤ '\u200A') ||
  c = '\u2028' || c = '\u2029' || c = '\u202F' || c = '\u205F' || c = '\u3000'

/-- Leading-whitespace trim (also the leading-space skip of `fmt.Sscanf`). -/
def trimLeft (l : GoStr) : GoStr := l.dropWhile isGoSpace

/-- Go `strings.TrimSpace`. -/
def trimSpace (l : GoStr) : GoStr := ((trimLeft l).reverse.dropWhile isGoSpace).reverse

/-- Tokenizer state of `tokenize` (part_001): `inQuotes`, `quoteChar`,
`escaped`, the rune builder `current` and the emitted `tokens`. -/
structure TokState where
  inQuotes : Bool
  quoteChar : Char
  escaped : Bool
  current : GoStr
  tokens : List GoStr
deriving DecidableEq

/-- Initial tokenizer state (Go zero values; `quoteChar` starts as rune 0). -/
def tokState0 : TokState := ⟨false, '\x00', false, [], []⟩

/-- The loop body and finishing step of `tokenize` (part_001 lines 313-362),
translated branch for branch: resolve a pending escape, arm an escape on a
backslash, open/close/copy quote characters, split tokens on unquoted space
or tab, and append any other rune; at end of input an open quote is an
error, otherwise the pending token (if non-empty) is emitted. -/
def tokenizeAux : GoStr → TokState → Option (List GoStr)
  | [], st =>
      if st.inQuotes then none
      else some (st.tokens ++ if st.current.isEmpty then [] else [st.current])
  | c :: rest, st =>
      if st.escaped then
        tokenizeAux rest { st with current := st.current ++ [c], escaped := false }
      else if c = '\\' then
        tokenizeAux rest { st with escaped := true }
      else if c = '"' || c = '\'' then
        if !st.inQuotes then
          tokenizeAux rest { st with inQuotes := true, quoteChar := c }
        else if c = st.quoteChar then
          tokenizeAux rest { st with inQuotes := false }
        else
          tokenizeAux rest { st with current := st.current ++ [c] }
      else if c = ' ' || c = '\t' then
        if st.inQuotes then
          tokenizeAux rest { st with current := st.current ++ [c] }
        else if !st.current.isEmpty then
          tokenizeAux rest { st with current := [], tokens := st.tokens ++ [st.current] }
        else
          tokenizeAux rest st
      else
        tokenizeAux rest { st with current := st.current ++ [c] }

/-- Model of `tokenize` (part_001): split a line into tokens, handling quotes and
escapes; `none` models the `unclosed quote` error. -/
def tokenize (line : GoStr) : Option (List GoStr) := tokenizeAux line tokState0

/-- Go `strings.HasPrefix(token, "-")`. -/
def startsWithDash : GoStr → Bool
  | '-' :: _ => true
  | _ => false

/-- The token loop of `ParseCommand` (part_001 lines 290-307): a token
starting with `-` is an option key; a following token not starting with `-`
is consumed as its value (the index advances past it), otherwise the option
maps to the empty string; any other token is a positional argument. -/
def parseTokensLoop : List GoStr → Command → Command
  | [], cmd => cmd
  | [t], cmd =>
      if startsWithDash t then { cmd with Options := mapInsert cmd.Options t [] }
      else { cmd with Args := cmd.Args ++ [t] }
  | t :: t' :: rest, cmd =>
      if startsWithDash t then
        if !startsWithDash t' then
          parseTokensLoop rest { cmd with Options := mapInsert cmd.Options t t' }
        else
          parseTokensLoop (t' :: rest) { cmd with Options := mapInsert cmd.Options t [] }
      else
        parseTokensLoop (t' :: rest) { cmd with Args := cmd.Args ++ [t] }

/-- Errors of `ParseCommand`. -/
inductive ParseErr
  | emptyCommand
  | tokenizeFailed
  | noTokens
deriving DecidableEq

/-- Model of `ParseCommand` (part_001 lines 268-310): trim, reject a blank line,
tokenize, make token 0 the name and scan the rest into args and options. -/
def ParseCommand (line : GoStr) : Except ParseErr Command :=
  let l := trimSpace line
  if l.isEmpty then .error .emptyCommand
  else
    match tokenize l with
    | none => .error .tokenizeFailed
    | some [] => .error .noTokens
    | some (t0 :: rest) =>
        .ok (parseTokensLoop rest { Name := t0, Args := [], Options := [] })

/-- Go `strings.Split` with a one-rune separator. -/
def splitOn (sep : Char) : GoStr → List GoStr
  | [] => [[]]
  | c :: rest =>
      if c = sep then [] :: splitOn sep rest
      else
        match splitOn sep rest with
        | [] => [[c]]
        | t :: ts => (c :: t) :: ts

/-- Model of `isValidTimeFormat` (part_001 lines 448-466): with a colon, only the
field count (2 or 3) is checked; without one, the string must be non-empty
and digits-only.  Go's `unicode.IsDigit` is modelled by `Char.isDigit`
(the model covers ASCII input; non-ASCII decimal digits are out of scope). -/
def isValidTimeFormat (timeStr : GoStr) : Bool :=
  if timeStr.contains ':' then
    let parts := splitOn ':' timeStr
    if parts.length < 2 || 3 < parts.length then false else true
  else if timeStr.all Char.isDigit then
    !timeStr.isEmpty
  else false

/-- Validation errors of `ValidateCommand`. -/
inductive ValidateErr
  | emptyName
  | conflictingOptions
  | invalidTimeFormat
deriving DecidableEq

/-- Model of `ValidateCommand` (part_001 lines 425-445): non-empty name, `-N` and
`-w` mutually exclusive, and a present *non-empty* `-t` value must pass
`isValidTimeFormat`. -/
def ValidateCommand (cmd : Command) : Option ValidateErr :=
  if cmd.Name.isEmpty then some .emptyName
  else if (mapLookup cmd.Options (gs "-N")).isSome &&
          (mapLookup cmd.Options (gs "-w")).isSome then
    some .conflictingOptions
  else
    match mapLookup cmd.Options (gs "-t") with
    | some timeLimit =>
        if !timeLimit.isEmpty && !isValidTimeFormat timeLimit then
          some .invalidTimeFormat
        else none
    | none => none

/-- The time-value shape demanded by the claim's words: a non-empty
digits-only string, or a colon-separated list of 2-3 fields each of which
is a non-empty digits-only string.  Stated from the spec, for comparison
with the source's `isValidTimeFormat`. -/
def claimTimeShapeOk (v : GoStr) : Bool :=
  (!v.isEmpty && v.all Char.isDigit) ||
  (let parts := splitOn ':' v
   (2 ≤ parts.length && parts.length ≤ 3) &&
     parts.all fun p => !p.isEmpty && p.all Char.isDigit)

/-- One step of the tokenizer as described by the spec's prose (section
4.1), written from the spec's words: a pending escape takes the character
literally; a backslash arms a one-character escape; an unescaped quote
character opens a region remembering which character opened it, the same
character closes it, and the other quote character is literal inside; space
or tab outside a quoted region ends the current token (if non-empty);
anything else is appended to the current token. -/
def tokenizeSpecStep (st : TokState) (c : Char) : TokState :=
  if st.escaped then { st with current := st.current ++ [c], escaped := false }
  else if c = '\\' then { st with escaped := true }
  else if c = '"' || c = '\'' then
    if !st.inQuotes then { st with inQuotes := true, quoteChar := c }
    else if c = st.quoteChar then { st with inQuotes := false }
    else { st with current := st.current ++ [c] }
  else if (c = ' ' || c = '\t') && !st.inQuotes then
    if st.current.isEmpty then st
    else { st with current := [], tokens := st.tokens ++ [st.current] }
  else { st with current := st.current ++ [c] }

/-- End-of-input rule of the spec's tokenizer: still inside a quoted region
is an `UnclosedQuote` error; otherwise the pending non-empty token is
emitted (a pending escape flag is left unresolved, appending nothing). -/
def tokenizeSpecFinish (st : TokState) : Option (List GoStr) :=
  if st.inQuotes then none
  else some (st.tokens ++ if st.current.isEmpty then [] else [st.current])

/-- The spec's tokenizer: a single left-to-right scan with explicit state. -/
def tokenizeSpec (line : GoStr) : Option (List GoStr) :=
  tokenizeSpecFinish (line.foldl tokenizeSpecStep tokState0)

/-- Token scan as described by the spec's parsing rule (section 4.2): for
i >= 1, a token starting with `-` is an option key; if the next token exists
and does not itself start with `-` it is consumed as the option's value and
the index advances by two, otherwise the option is a valueless flag; any
other token is a positional argument, appended in order.  Written from the
spec's words, returning the (args, options) pair. -/
def specScanTokens : List GoStr → List GoStr → List (GoStr × GoStr) →
    List GoStr × List (GoStr × GoStr)
  | [], args, opts => (args, opts)
  | [t], args, opts =>
      if startsWithDash t then (args, mapInsert opts t [])
      else (args ++ [t], opts)
  | t :: t' :: rest, args, opts =>
      if startsWithDash t then
        if startsWithDash t' then specScanTokens (t' :: rest) args (mapInsert opts t [])
        else specScanTokens rest args (mapInsert opts t t')
      else specScanTokens (t' :: rest) (args ++ [t]) opts

/-- The spec's parser contract (section 4.2): blank lines fail with
`EmptyCommand`, tokenization failures propagate, token 0 is the name, and
the remaining tokens are scanned into args and options. -/
def specParseCommand (line : GoStr) : Except ParseErr Command :=
  let l := trimSpace line
  if l.isEmpty then .error .emptyCommand
  else
    match tokenize l with
    | none => .error .tokenizeFailed
    | some [] => .error .noTokens
    | some (t0 :: rest) =>
        let scanned := specScanTokens rest [] []
        .ok ⟨t0, scanned.1, scanned.2⟩

/-! ## History manager (part_001 lines 12-216)

`HistoryEntry.Timestamp` is kept as Unix seconds (`time.Time` is persisted
with second precision through `Timestamp.Unix()`), `Duration` as
nanoseconds; both `int64`, modelled as unbounded `Int` (no arithmetic is
performed on them, only printing and parsing). -/

/-- Model of `HistoryEntry`: one executed line's audit record. -/
structure HistoryEntry where
  Command : GoStr
  Timestamp : Int
  Success : Bool
  Duration : Int
deriving DecidableEq

/-- Model of `History.Add` (part_001 lines 42-66): trim the command, silently drop a
blank command or one identical to the immediately preceding entry's
command, append, then truncate from the front down to `maxSize`.  The
timestamp (`time.Now()` in the source) is passed explicitly. -/
def historyAdd (maxSize : Nat) (entries : List HistoryEntry) (command : GoStr)
    (ts : Int) (success : Bool) (duration : Int) : List HistoryEntry :=
  let cmdT := trimSpace command
  if cmdT.isEmpty then entries
  else if entries.getLast?.map (·.Command) = some cmdT then entries
  else
    let entries' := entries ++ [⟨cmdT, ts, success, duration⟩]
    if maxSize < entries'.length then entries'.drop (entries'.length - maxSize)
    else entries'

/-- Decimal digits of a natural number, most significant first, with
explicit recursion fuel (sufficient whenever `n < 10 ^ fuel`). -/
def natCharsAux : Nat → Nat → GoStr
  | 0, _ => []
  | fuel + 1, n =>
      if n < 10 then [Char.ofNat (48 + n)]
      else natCharsAux fuel (n / 10) ++ [Char.ofNat (48 + n % 10)]

/-- Decimal digits of a natural number, most significant first (the digit
part of Go's `%d` verb). -/
def natChars (n : Nat) : GoStr := natCharsAux (n + 1) n

/-- Go's `%d` formatting of a (signed) integer. -/
def intChars (n : Int) : GoStr :=
  if n < 0 then '-' :: natChars (-n).toNat else natChars n.toNat

/-- Go's `%t` formatting of a boolean. -/
def boolChars (b : Bool) : GoStr := if b then gs "true" else gs "false"

/-- Accumulate a decimal digit run (the value part of scanning `%d`). -/
def digitsFold (ds : GoStr) : Nat :=
  ds.foldl (fun acc c => acc * 10 + (c.toNat - 48)) 0

/-- Optional-sign step of scanning `%d`: consume one leading `-` or `+`. -/
def parseGoIntSign : GoStr → Bool × GoStr
  | [] => (false, [])
  | c :: rest =>
      if c = '-' then (true, rest)
      else if c = '+' then (false, rest)
      else (false, c :: rest)

/-- Model of `fmt.Sscanf(s, "%d", ...)`: skip leading whitespace, read an optional
sign and at least one digit; trailing unread input is not an error for
`Sscanf`, so it is ignored. -/
def parseGoInt (s : GoStr) : Option Int :=
  let p := parseGoIntSign (trimLeft s)
  let ds := p.2.takeWhile Char.isDigit
  if ds.isEmpty then none
  else some (if p.1 then -(digitsFold ds : Int) else (digitsFold ds : Int))

/-- Model of `fmt.Sscanf(s, "%t", ...)` (fmt's `scanBool`): skip leading
whitespace, then accept `0`, `1`, or a case-insensitive `t`/`f` optionally
continuing into the full word — a lone `t`/`f` suffices, but once an
`r` (resp. `a`) is read the rest of `true` (resp. `false`) must follow;
anything after the accepted part is left unread and, for `Sscanf`,
ignored. -/
def parseGoBool (s : GoStr) : Option Bool :=
  match trimLeft s with
  | [] => none
  | c :: rest =>
      if c = '0' then some false
      else if c = '1' then some true
      else if c = 't' || c = 'T' then
        match rest with
        | r :: rest₁ =>
            if r = 'r' || r = 'R' then
              match rest₁ with
              | u :: rest₂ =>
                  if u = 'u' || u = 'U' then
                    match rest₂ with
                    | e :: _ => if e = 'e' || e = 'E' then some true else none
                    | [] => none
                  else none
              | [] => none
            else some true
        | [] => some true
      else if c = 'f' || c = 'F' then
        match rest with
        | a :: rest₁ =>
            if a = 'a' || a = 'A' then
              match rest₁ with
              | l :: rest₂ =>
                  if l = 'l' || l = 'L' then
                    match rest₂ with
                    | s' :: rest₃ =>
                        if s' = 's' || s' = 'S' then
                          match rest₃ with
                          | e :: _ => if e = 'e' || e = 'E' then some false else none
                          | [] => none
                        else none
                    | [] => none
                  else none
              | [] => none
            else some false
        | [] => some false
      else none

/-- The `timestamp|success|duration|command` line written by `History.Save`
(part_001 lines 126-137), without the trailing newline. -/
def encodeEntryBody (e : HistoryEntry) : GoStr :=
  intChars e.Timestamp ++ '|' :: (boolChars e.Success ++ '|' ::
    (intChars e.Duration ++ '|' :: e.Command))

/-- Model of `History.Save` (part_001 lines 116-140): one line per entry, four
fields joined by `|`, each line terminated by a newline. -/
def historySave (entries : List HistoryEntry) : GoStr :=
  (entries.map fun e => encodeEntryBody e ++ ['\n']).flatten

/-- Split at the first occurrence of `sep`, when there is one. -/
def breakAt (sep : Char) : GoStr → Option (GoStr × GoStr)
  | [] => none
  | c :: rest =>
      if c = sep then some ([], rest)
      else
        match breakAt sep rest with
        | none => none
        | some (a, b) => some (c :: a, b)

/-- Go `strings.SplitN` with a one-rune separator and `n > 0`: at most `n`
substrings, the last of which is the unsplit remainder. -/
def splitNgo (sep : Char) : Nat → GoStr → List GoStr
  | 0, _ => []
  | 1, l => [l]
  | n + 2, l =>
      match breakAt sep l with
      | none => [l]
      | some (a, b) => a :: splitNgo sep (n + 1) b

/-- Model of `parseHistoryLine` (part_001 lines 184-216): `strings.SplitN(line, "|", 4)`
must yield exactly four parts; the first three parse as integer, boolean
and integer; the command is everything after the third `|`. -/
def parseHistoryLine (line : GoStr) : Option HistoryEntry :=
  match splitNgo '|' 4 line with
  | [p0, p1, p2, p3] =>
      match parseGoInt p0, parseGoBool p1, parseGoInt p2 with
      | some ts, some succ, some dur => some ⟨p3, ts, succ, dur⟩
      | _, _, _ => none
  | _ => none

/-- Drop one trailing carriage return (`bufio.ScanLines`). -/
def dropCR (l : GoStr) : GoStr :=
  if l.getLast? = some '\r' then l.dropLast else l

/-- Model of `bufio.Scanner` with `ScanLines`: split on newlines, return a final
partial line, drop a trailing `\r` from each line; empty input yields no
lines. -/
def splitLines (content : GoStr) : List GoStr :=
  let ls := splitOn '\n' content
  let ls := if ls.getLast? = some [] then ls.dropLast else ls
  ls.map dropCR

/-- Model of `History.Load` (part_001 lines 143-181) applied to the file's content:
trim each line, skip blank and unparseable lines silently, keep only the
last `maxSize` entries. -/
def historyLoad (maxSize : Nat) (content : GoStr) : List HistoryEntry :=
  let entries := (splitLines content).filterMap fun line =>
    let l := trimSpace line
    if l.isEmpty then none else parseHistoryLine l
  if maxSize < entries.length then entries.drop (entries.length - maxSize)
  else entries

/-- The history operations of the claim: `Add`, `Load` (with the file's
content made explicit) and `Clear`. -/
inductive HistoryOp
  | add (command : GoStr) (ts : Int) (success : Bool) (duration : Int)
  | load (content : GoStr)
  | clear
deriving DecidableEq

/-- Effect of one history operation on the in-memory log. -/
def historyStep (maxSize : Nat) (entries : List HistoryEntry) : HistoryOp → List HistoryEntry
  | .add c ts s d => historyAdd maxSize entries c ts s d
  | .load content => historyLoad maxSize content
  | .clear => []

/-- The log reached from the empty log by a sequence of operations. -/
def historyRun (maxSize : Nat) (ops : List HistoryOp) : List HistoryEntry :=
  ops.foldl (historyStep maxSize) []

/-- Whether an operation is an `Add` or a `Clear` (no `Load`). -/
def isAddOrClear : HistoryOp → Bool
  | .load _ => false
  | _ => true

/-- The claimed log invariant: no stored entry has an empty command and no
two consecutive entries have identical command strings. -/
def goodLog : List HistoryEntry → Bool
  | [] => true
  | [e] => !e.Command.isEmpty
  | e :: e' :: rest =>
      (!e.Command.isEmpty && !decide (e.Command = e'.Command)) && goodLog (e' :: rest)

/-- A command string that survives the persisted encoding byte for byte: it
contains no newline and does not end in whitespace (the loader trims each
line before decoding it). -/
def roundTrippable (cmd : GoStr) : Bool :=
  !decide ('\n' ∈ cmd) &&
    match cmd.getLast? with
    | some c => !isGoSpace c
    | none => true

/-! ## External execution and dispatch (part_007) -/

/-- Behaviour of the child process handed to `exec.Cmd.Run`: it either
cannot be started/run (a transport-level failure, which also stands for a
timeout kill on the captured path) or it starts and exits with a status
code after producing the given stdout and stderr bytes. -/
inductive ChildOutcome
  | startFail
  | exited (code : Int) (stdout stderr : GoStr)
deriving DecidableEq

/-- Errors surfaced by `exec.Cmd.Run`. -/
inductive RunErr
  | startErr
  | exitErr (code : Int)
deriving DecidableEq

/-- Go `exec.Cmd.Run`: a nil error exactly when the child started and
exited with status 0; an `ExitError` for a non-zero exit; another error
when the child could not be started or run. -/
def goRunErr : ChildOutcome → Option RunErr
  | .startFail => some .startErr
  | .exited code _ _ => if code = 0 then none else some (.exitErr code)

/-- Model of `slurm.CommandResult` (the `Duration` field is not modelled; no claim
mentions it on this path). -/
structure CommandResult where
  Success : Bool
  ExitCode : Int
  Output : GoStr
  Error : GoStr
deriving DecidableEq

/-- Model of `Client.Execute` (part_007 lines 160-191): run with captured
stdout/stderr under a timeout; build the result from the buffers and the
run error (exit code -1 when the error is not an `ExitError`), and return
the error alongside it. -/
def clientExecute (o : ChildOutcome) : CommandResult × Option RunErr :=
  let err := goRunErr o
  let out : GoStr := match o with | .exited _ stdout _ => stdout | .startFail => []
  let er : GoStr := match o with | .exited _ _ stderr => stderr | .startFail => []
  let code : Int :=
    match err with
    | none => 0
    | some (.exitErr c) => c
    | some .startErr => -1
  (⟨err.isNone, code, out, er⟩, err)

/-- Model of `Client.ExecuteInteractive` (part_007 lines 358-365): inherit the
shell's stdin/stdout/stderr, no timeout, and return `cmd.Run()`'s error. -/
def clientExecuteInteractive (o : ChildOutcome) : Option RunErr := goRunErr o

/-- The fixed Slurm toolchain allow-list (part_007 lines 82-86). -/
def slurmCommands : List GoStr :=
  [gs "srun", gs "sbatch", gs "scancel", gs "squeue", gs "sinfo", gs "sacct",
   gs "scontrol", gs "sstat", gs "sprio", gs "sshare", gs "sreport",
   gs "salloc", gs "sattach", gs "sacctmgr"]

/-- The names bound by `registerBuiltinCommands` (shell.go lines 131-159). -/
def builtinNames : List GoStr :=
  [gs "run", gs "submit", gs "status", gs "cancel", gs "queue", gs "jobs",
   gs "nodes", gs "partitions", gs "history", gs "alias", gs "config",
   gs "help", gs "exit", gs "quit", gs "q", gs "j", gs "n", gs "h"]

/-- Which of the three execution paths `Registry.Execute` and
`executeSystemCommand` choose for a command name, mirroring their branch
conditions. -/
inductive DispatchPath
  | handler
  | captured
  | interactive
deriving DecidableEq

/-- Branch selection of the dispatcher: registered handler first, then the
Slurm allow-list (captured), otherwise interactive. -/
def dispatchPath (registered : List GoStr) (cmd : Command) : DispatchPath :=
  if registered.contains cmd.Name then .handler
  else if slurmCommands.contains cmd.Name then .captured
  else .interactive

/-- Observable outcome of `executeSystemCommand`: what it prints, in
order, and the error it returns. -/
structure SysExecResult where
  printed : List GoStr
  err : Option RunErr
deriving DecidableEq

/-- Model of `Registry.executeSystemCommand` (part_007 lines 78-117): a name in the
Slurm allow-list goes through `Client.Execute`; on error the error is
returned (nothing printed here); on success the captured stdout is printed
if non-empty, then the captured stderr if non-empty.  Any other name goes
through `Client.ExecuteInteractive`, which prints nothing itself. -/
def executeSystemCommand (cmd : Command) (o : ChildOutcome) : SysExecResult :=
  if slurmCommands.contains cmd.Name then
    let res := clientExecute o
    match res.2 with
    | some e => ⟨[], some e⟩
    | none =>
        ⟨(if !res.1.Output.isEmpty then [res.1.Output] else []) ++
           (if !res.1.Error.isEmpty then [res.1.Error] else []), none⟩
  else ⟨[], clientExecuteInteractive o⟩

/-- Outcome of `Registry.Execute` (part_007 lines 46-54). -/
inductive DispatchResult
  | handlerRan
  | system (r : SysExecResult)
deriving DecidableEq

/-- Model of `Registry.Execute`: invoke the registered handler when one exists,
otherwise fall through to `executeSystemCommand`. -/
def registryExecute (registered : List GoStr) (cmd : Command) (o : ChildOutcome) :
    DispatchResult :=
  if registered.contains cmd.Name then .handlerRan
  else .system (executeSystemCommand cmd o)

/-! ## Shell command pipeline (shell.go lines 84-128) -/

/-- Go `strings.Join(args, " ")`. -/
def joinSpace : List GoStr → GoStr
  | [] => []
  | [a] => a
  | a :: rest => a ++ ' ' :: joinSpace rest

/-- What happens to one input line before dispatch: a parse failure, a
validation failure, a failure re-parsing an alias expansion, or dispatch of
a command. -/
inductive ExecOutcome
  | parseFailed
  | invalidCommand (e : ValidateErr)
  | aliasParseFailed
  | dispatched (cmd : Command)
deriving DecidableEq

/-- Model of `Shell.executeCommand` (shell.go lines 84-128) up to the dispatch call:
parse, validate, then — when the name is an alias — re-parse the alias
expansion concatenated with a space and the space-joined positional
arguments, and dispatch the resulting command. -/
def executeCommandModel (aliases : List (GoStr × GoStr)) (line : GoStr) : ExecOutcome :=
  match ParseCommand line with
  | .error _ => .parseFailed
  | .ok cmd =>
    match ValidateCommand cmd with
    | some e => .invalidCommand e
    | none =>
      match mapLookup aliases cmd.Name with
      | some exp =>
        match ParseCommand (exp ++ ' ' :: joinSpace cmd.Args) with
        | .error _ => .aliasParseFailed
        | .ok aliasCmd => .dispatched aliasCmd
      | none => .dispatched cmd

/-! ## Option-to-job-parameters projection (src/commands/run.go lines 144-201) -/

/-- Wrap an integer into Go's 64-bit signed `int` range (Go integer
overflow wraps in two's complement). -/
def wrap64 (z : Int) : Int := (z + 2 ^ 63) % 2 ^ 64 - 2 ^ 63

/-- Loop of `parseInt` (run.go lines 191-201): accumulate ASCII decimal
digits with 64-bit wraparound; any other character makes the whole parse
return 0. -/
def parseIntGoAux : GoStr → Int → Int
  | [], acc => acc
  | c :: rest, acc =>
      if '0' ≤ c ∧ c ≤ '9' then
        parseIntGoAux rest (wrap64 (acc * 10 + ((c.toNat : Int) - 48)))
      else 0

/-- Model of `parseInt` (run.go): 0 for the empty string and for any string with a
non-digit character. -/
def parseIntGo (s : GoStr) : Int := parseIntGoAux s 0

/-- Model of `slurm.JobOptions` (the `Environment` map is created empty by
`parseJobOptions` and never filled there, so it is not modelled). -/
structure JobOptions where
  Name : GoStr
  JPartition : GoStr
  Nodes : Int
  CPUs : Int
  Memory : GoStr
  Time : GoStr
  QoS : GoStr
  Account : GoStr
  Output : GoStr
  Error : GoStr
  WorkDir : GoStr
  ExtraArgs : List GoStr
deriving DecidableEq

/-- Zero `JobOptions` value. -/
def jobOptions0 : JobOptions := ⟨[], [], 0, 0, [], [], [], [], [], [], [], []⟩

/-- One iteration of the option switch in `parseJobOptions` (run.go lines
149-185): recognized keys set their field (`-N`/`--nodes` and
`-c`/`--cpus-per-task` only when `parseInt` of the value is positive);
unknown keys are appended to `ExtraArgs`, with their value when
non-empty. -/
def applyJobOption (j : JobOptions) (opt value : GoStr) : JobOptions :=
  if opt = gs "-J" || opt = gs "--job-name" then { j with Name := value }
  else if opt = gs "-p" || opt = gs "--partition" then { j with JPartition := value }
  else if opt = gs "-N" || opt = gs "--nodes" then
    (if 0 < parseIntGo value then { j with Nodes := parseIntGo value } else j)
  else if opt = gs "-c" || opt = gs "--cpus-per-task" then
    (if 0 < parseIntGo value then { j with CPUs := parseIntGo value } else j)
  else if opt = gs "--mem" then { j with Memory := value }
  else if opt = gs "-t" || opt = gs "--time" then { j with Time := value }
  else if opt = gs "--qos" then { j with QoS := value }
  else if opt = gs "-A" || opt = gs "--account" then { j with Account := value }
  else if opt = gs "-o" || opt = gs "--output" then { j with Output := value }
  else if opt = gs "-e" || opt = gs "--error" then { j with Error := value }
  else if opt = gs "-D" || opt = gs "--chdir" then { j with WorkDir := value }
  else if !value.isEmpty then { j with ExtraArgs := j.ExtraArgs ++ [opt, value] }
  else { j with ExtraArgs := j.ExtraArgs ++ [opt] }

/-- Model of `parseJobOptions` (run.go lines 144-188).  Go map iteration order is
unspecified; the model iterates the association list in order, and every
theorem stated about this function is insensitive to that order. -/
def parseJobOptions (options : List (GoStr × GoStr)) : JobOptions :=
  options.foldl (fun j kv => applyJobOption j kv.1 kv.2) jobOptions0

/-- Keys recognized by the switch of `parseJobOptions`. -/
def recognizedJobOpt (k : GoStr) : Bool :=
  k = gs "-J" || k = gs "--job-name" || k = gs "-p" || k = gs "--partition" ||
  k = gs "-N" || k = gs "--nodes" || k = gs "-c" || k = gs "--cpus-per-task" ||
  k = gs "--mem" || k = gs "-t" || k = gs "--time" || k = gs "--qos" ||
  k = gs "-A" || k = gs "--account" || k = gs "-o" || k = gs "--output" ||
  k = gs "-e" || k = gs "--error" || k = gs "-D" || k = gs "--chdir"

/-- A non-empty all-ASCII-decimal-digit string (the claim's
"non-empty string of decimal digits"). -/
def decimalDigits (s : GoStr) : Bool :=
  !s.isEmpty && s.all fun c => decide ('0' ≤ c) && decide (c ≤ '9')

/-- The `ExtraArgs` contribution of one option binding: nothing for a
recognized key; the key (and its value when non-empty) otherwise. -/
def extraArgsOf (kv : GoStr × GoStr) : List GoStr :=
  if recognizedJobOpt kv.1 then []
  else if !kv.2.isEmpty then [kv.1, kv.2] else [kv.1]

/-! ## Tokenizer: the source's loop refines the spec's state machine -/

theorem tokenizeAux_cons (c : Char) (rest : GoStr) (st : TokState) :
    tokenizeAux (c :: rest) st = tokenizeAux rest (tokenizeSpecStep st c) := by
  simp only [tokenizeAux, tokenizeSpecStep]
  split_ifs <;> simp_all

theorem tokenizeAux_eq_spec (l : GoStr) : ∀ st : TokState,
    tokenizeAux l st = tokenizeSpecFinish (l.foldl tokenizeSpecStep st) := by
  induction l with
  | nil => intro st; rfl
  | cons c rest ih =>
      intro st
      rw [List.foldl_cons, ← ih, tokenizeAux_cons]

/-- Claim C6: `tokenize` implements the single left-to-right scan described
by the spec (escape, quote and whitespace handling, failing exactly when
the input ends inside a quoted region, a bare trailing backslash swallowed
without error), and reproduces the spec's examples. -/
theorem c6_tokenize_refines_spec :
    (∀ line : GoStr, tokenize line = tokenizeSpec line) ∧
    tokenize (gs "a \"b c\" d") = some [gs "a", gs "b c", gs "d"] ∧
    tokenize (gs "a\\ b") = some [gs "a b"] ∧
    tokenize (gs "\"a") = none ∧
    tokenize (gs "") = some [] ∧
    tokenize (gs "ab\\") = some [gs "ab"] :=
  ⟨fun line => tokenizeAux_eq_spec line tokState0, by rfl, by rfl, by rfl, by rfl, by rfl⟩

/-- Witness for C6's refinement at a concrete line. -/
theorem c6_tokenize_refines_spec_witness :
    tokenize (gs "echo 'hi there'") = tokenizeSpec (gs "echo 'hi there'") :=
  c6_tokenize_refines_spec.1 (gs "echo 'hi there'")

/-! ## Parser: the source's token loop refines the spec's scanning rule -/

theorem parseTokensLoop_eq_spec : ∀ (ts : List GoStr) (cmd : Command),
    parseTokensLoop ts cmd =
      ⟨cmd.Name, (specScanTokens ts cmd.Args cmd.Options).1,
        (specScanTokens ts cmd.Args cmd.Options).2⟩
  | [], cmd => by simp [parseTokensLoop, specScanTokens]
  | [t], cmd => by
      by_cases h : startsWithDash t = true <;>
        simp [parseTokensLoop, specScanTokens, h]
  | t :: t' :: rest, cmd => by
      have ih1 := parseTokensLoop_eq_spec rest
      have ih2 := parseTokensLoop_eq_spec (t' :: rest)
      by_cases h1 : startsWithDash t = true <;>
        by_cases h2 : startsWithDash t' = true <;>
        simp [parseTokensLoop, specScanTokens, h1, h2, ih1, ih2]

theorem ParseCommand_eq_spec (line : GoStr) : ParseCommand line = specParseCommand line := by
  unfold ParseCommand specParseCommand
  by_cases h : (trimSpace line).isEmpty = true
  · simp [h]
  · simp only [h]
    cases htok : tokenize (trimSpace line) with
    | none => simp
    | some ts =>
        cases ts with
        | nil => simp
        | cons t0 rest => simp [parseTokensLoop_eq_spec]

/-- Claim C7: `ParseCommand` makes token 0 the command name and scans the
remaining tokens by the spec's rule (an option key takes the next token as
its value when that token exists and does not start with `-`, advancing
past it, and maps to the empty string otherwise; every unconsumed token is
a positional argument in order; a repeated option key keeps only its last
occurrence, by map semantics), and reproduces the spec's examples. -/
theorem c7_parse_refines_spec :
    (∀ line : GoStr, ParseCommand line = specParseCommand line) ∧
    ParseCommand (gs "run -N 2 hostname") =
      .ok ⟨gs "run", [gs "hostname"], [(gs "-N", gs "2")]⟩ ∧
    ParseCommand (gs "run -v hostname") =
      .ok ⟨gs "run", [], [(gs "-v", gs "hostname")]⟩ ∧
    ParseCommand (gs "run -N 1 -N 2") = .ok ⟨gs "run", [], [(gs "-N", gs "2")]⟩ :=
  ⟨ParseCommand_eq_spec, by rfl, by rfl, by rfl⟩

/-- Witness for C7's refinement at a concrete line. -/
theorem c7_parse_refines_spec_witness :
    ParseCommand (gs "cancel 42") = specParseCommand (gs "cancel 42") :=
  c7_parse_refines_spec.1 (gs "cancel 42")

/-! ## Validation (claim C1) -/

/-- Claim C1 counterexample: the claim demands `InvalidTimeFormat` for a
`-t` value whose colon-separated fields are not numeric, but the source's
`isValidTimeFormat` checks only the field count, so `-t a:b` validates
successfully. -/
theorem c1_validate_counterexample :
    ValidateCommand ⟨gs "run", [], [(gs "-t", gs "a:b")]⟩ = none ∧
    mapLookup [(gs "-t", gs "a:b")] (gs "-t") = some (gs "a:b") ∧
    claimTimeShapeOk (gs "a:b") = false ∧
    ValidateCommand ⟨gs "run", [], [(gs "-t", gs "")]⟩ = none ∧
    claimTimeShapeOk [] = false :=
  ⟨by rfl, by rfl, by rfl, by rfl, by rfl⟩

/-- Claim C1 as amended: `validate` fails with `emptyName` exactly on an
empty name, with `ConflictingOptions` exactly when both `-N` and `-w` are
present, and with `InvalidTimeFormat` exactly when a `-t` option is
present with a *non-empty* value that neither is a non-empty digits-only
string nor contains a colon splitting it into 2-3 fields (field contents
unchecked); it succeeds on every other command, reproducing the spec's
three examples. -/
theorem c1_validate_characterization :
    (∀ cmd : Command,
      (ValidateCommand cmd = some .emptyName ↔ cmd.Name = []) ∧
      (ValidateCommand cmd = some .conflictingOptions ↔
        cmd.Name ≠ [] ∧ (mapLookup cmd.Options (gs "-N")).isSome = true ∧
          (mapLookup cmd.Options (gs "-w")).isSome = true) ∧
      (ValidateCommand cmd = some .invalidTimeFormat ↔
        cmd.Name ≠ [] ∧
        ¬((mapLookup cmd.Options (gs "-N")).isSome = true ∧
            (mapLookup cmd.Options (gs "-w")).isSome = true) ∧
        ∃ v, mapLookup cmd.Options (gs "-t") = some v ∧ v ≠ [] ∧
          isValidTimeFormat v = false)) ∧
    ValidateCommand ⟨gs "run", [], [(gs "-t", gs "10:00")]⟩ = none ∧
    ValidateCommand ⟨gs "run", [], [(gs "-t", gs "abc")]⟩ = some .invalidTimeFormat ∧
    ValidateCommand ⟨gs "run", [], [(gs "-N", gs "2"), (gs "-w", gs "node1")]⟩ =
      some .conflictingOptions := by
  refine ⟨fun cmd => ?_, by rfl, by rfl, by rfl⟩
  unfold ValidateCommand
  by_cases h1 : cmd.Name = []
  · simp [h1, List.isEmpty_iff]
  · simp only [List.isEmpty_iff, h1, if_false]
    by_cases h2 : (mapLookup cmd.Options (gs "-N")).isSome = true ∧
        (mapLookup cmd.Options (gs "-w")).isSome = true
    · simp [h2.1, h2.2, h1]
    · have hb : ((mapLookup cmd.Options (gs "-N")).isSome &&
          (mapLookup cmd.Options (gs "-w")).isSome) = false := by
        cases hN : (mapLookup cmd.Options (gs "-N")).isSome <;>
          cases hW : (mapLookup cmd.Options (gs "-w")).isSome <;> simp_all
      simp only [hb, Bool.false_eq_true, if_false]
      cases ht : mapLookup cmd.Options (gs "-t") with
      | none => simp [h1, h2]
      | some v =>
          by_cases hv : v = []
          · simp [hv, h1, h2, List.isEmpty_iff]
          · by_cases hf : isValidTimeFormat v = true
            · simp [h1, h2, hv, hf, List.isEmpty_iff]
            · have hf' : isValidTimeFormat v = false := by simpa using hf
              simp [h1, h2, hv, hf', List.isEmpty_iff]

/-- Witness for C1's characterization at the empty-name command. -/
theorem c1_validate_characterization_witness :
    ValidateCommand ⟨[], [], []⟩ = some .emptyName := by
  have h := c1_validate_characterization
  exact ((h.1 ⟨[], [], []⟩).1).mpr rfl

/-! ## Alias resolution (claim C8) -/

/-- Claim C8: when the parsed command's name is an alias, the dispatched
command is exactly the one obtained by re-parsing the alias expansion
concatenated with a space and the space-joined original positional
arguments (the pre-alias options are discarded), substitution is applied
once (the result is dispatched even when its own name is an alias key, as
the `q -> q` example shows), and the spec's `q alice` example holds. -/
theorem c8_alias_resolution :
    (∀ (aliases : List (GoStr × GoStr)) (line : GoStr) (c₀ : Command) (exp : GoStr),
      ParseCommand line = .ok c₀ → ValidateCommand c₀ = none →
      mapLookup aliases c₀.Name = some exp →
      executeCommandModel aliases line =
        match ParseCommand (exp ++ ' ' :: joinSpace c₀.Args) with
        | .error _ => .aliasParseFailed
        | .ok c => .dispatched c) ∧
    executeCommandModel [(gs "q", gs "queue")] (gs "q alice") =
      .dispatched ⟨gs "queue", [gs "alice"], []⟩ ∧
    ParseCommand (gs "queue alice") = .ok ⟨gs "queue", [gs "alice"], []⟩ ∧
    executeCommandModel [(gs "q", gs "q")] (gs "q x") =
      .dispatched ⟨gs "q", [gs "x"], []⟩ ∧
    mapLookup [(gs "q", gs "q")] (gs "q") = some (gs "q") := by
  refine ⟨fun aliases line c₀ exp hp hv ha => ?_, by rfl, by rfl, by rfl, by rfl⟩
  simp only [executeCommandModel, hp, hv, ha]

/-- Witness for C8's general conjunct at the spec's `q alice` input. -/
theorem c8_alias_resolution_witness :
    executeCommandModel [(gs "q", gs "queue")] (gs "q bob") =
      match ParseCommand (gs "queue" ++ ' ' :: joinSpace [gs "bob"]) with
      | .error _ => ExecOutcome.aliasParseFailed
      | .ok c => ExecOutcome.dispatched c :=
  c8_alias_resolution.1 [(gs "q", gs "queue")] (gs "q bob") ⟨gs "q", [gs "bob"], []⟩
    (gs "queue") (by rfl) (by rfl) (by rfl)

/-! ## Validation happens before dispatch, but not after alias expansion
(claim C3) -/

/-- Claim C3 counterexample: the replacement command produced by alias
expansion is dispatched without being validated — expanding the alias
`q -> queue -N 2 -w n1` dispatches a command carrying both `-N` and `-w`,
which violates the `ConflictingOptions` validation rule. -/
theorem c3_validation_bypass_counterexample :
    executeCommandModel [(gs "q", gs "queue -N 2 -w n1")] (gs "q") =
      .dispatched ⟨gs "queue", [], [(gs "-N", gs "2"), (gs "-w", gs "n1")]⟩ ∧
    ValidateCommand ⟨gs "queue", [], [(gs "-N", gs "2"), (gs "-w", gs "n1")]⟩ =
      some .conflictingOptions :=
  ⟨by rfl, by rfl⟩

/-- Claim C3 as amended: validation runs after parsing and before alias
resolution and dispatch, so the *originally parsed* command of every
dispatched line passed validation, and when no alias applies the
dispatched command itself is the validated one; a replacement command
produced by alias expansion is dispatched without re-validation. -/
theorem c3_validation_before_dispatch (aliases : List (GoStr × GoStr)) (line : GoStr)
    (c : Command) (h : executeCommandModel aliases line = .dispatched c) :
    ∃ c₀, ParseCommand line = .ok c₀ ∧ ValidateCommand c₀ = none ∧
      (mapLookup aliases c₀.Name = none → c = c₀) := by
  unfold executeCommandModel at h
  split at h
  · exact absurd h (by simp)
  next c₀ hp =>
    split at h
    · exact absurd h (by simp)
    next hv =>
      refine ⟨c₀, hp, hv, fun hna => ?_⟩
      rw [hna] at h
      simp at h
      exact h.symm

/-- Witness for C3's amended theorem on the line `status`. -/
theorem c3_validation_before_dispatch_witness :
    ∃ c₀, ParseCommand (gs "status") = .ok c₀ ∧ ValidateCommand c₀ = none ∧
      (mapLookup [] c₀.Name = none → (⟨gs "status", [], []⟩ : Command) = c₀) :=
  c3_validation_before_dispatch [] (gs "status") ⟨gs "status", [], []⟩ (by rfl)

/-! ## Dispatch of unregistered names (claims C2 and C9) -/

/-- Claim C2 counterexample: on the interactive path the dispatcher returns
`cmd.Run()`'s error, and a child that starts and exits with status 1
produces an `ExitError` — a non-zero exit *is* reported as a shell-level
error, not only transport-level failures. -/
theorem c2_interactive_counterexample :
    registryExecute builtinNames ⟨gs "vim", [], []⟩ (.exited 1 [] []) =
      .system ⟨[], some (.exitErr 1)⟩ ∧
    dispatchPath builtinNames ⟨gs "vim", [], []⟩ = .interactive ∧
    RunErr.exitErr 1 ≠ RunErr.startErr :=
  ⟨by rfl, by rfl, by decide⟩

/-- Claim C2 as amended: a command whose name has no registered handler and
is not in the toolchain allow-list goes through the interactive path (the
child inherits the shell's streams, no timeout, nothing printed by the
dispatcher itself), and the dispatcher reports an error whenever
`cmd.Run()` fails — both when the child cannot be started and when it
exits with a non-zero status; only a zero exit reports success. -/
theorem c2_interactive_dispatch (registered : List GoStr) (cmd : Command)
    (h1 : registered.contains cmd.Name = false)
    (h2 : slurmCommands.contains cmd.Name = false) :
    dispatchPath registered cmd = .interactive ∧
    (∀ (code : Int) (out er : GoStr),
      registryExecute registered cmd (.exited code out er) =
        .system ⟨[], if code = 0 then none else some (.exitErr code)⟩) ∧
    registryExecute registered cmd .startFail = .system ⟨[], some .startErr⟩ := by
  have h1' : cmd.Name ∉ registered := by simpa using h1
  have h2' : cmd.Name ∉ slurmCommands := by simpa using h2
  refine ⟨?_, fun code out er => ?_, ?_⟩ <;>
    simp [dispatchPath, registryExecute, executeSystemCommand,
      clientExecuteInteractive, goRunErr, h1', h2']

/-- Witness for C2's amended theorem: `vim` is neither registered nor in
the allow-list. -/
theorem c2_interactive_dispatch_witness :
    dispatchPath builtinNames ⟨gs "vim", [], []⟩ = .interactive ∧
    registryExecute builtinNames ⟨gs "vim", [], []⟩ (.exited 2 [] []) =
      .system ⟨[], some (.exitErr 2)⟩ ∧
    registryExecute builtinNames ⟨gs "vim", [], []⟩ .startFail =
      .system ⟨[], some .startErr⟩ := by
  have h := c2_interactive_dispatch builtinNames ⟨gs "vim", [], []⟩ (by rfl) (by rfl)
  exact ⟨h.1, (h.2.1 2 [] []).trans (by rfl), h.2.2⟩

/-- Claim C9 counterexample: on the captured path a child that exits with
status 1 makes `Client.Execute` return an error, and `executeSystemCommand`
returns that error *before* echoing, so the non-empty captured stdout is
never printed — the claimed unconditional echo does not happen. -/
theorem c9_captured_counterexample :
    registryExecute builtinNames ⟨gs "squeue", [], [(gs "-u", gs "bob")]⟩
      (.exited 1 (gs "JOBS") []) = .system ⟨[], some (.exitErr 1)⟩ ∧
    gs "JOBS" ≠ [] ∧
    ParseCommand (gs "squeue -u bob") = .ok ⟨gs "squeue", [], [(gs "-u", gs "bob")]⟩ :=
  ⟨by rfl, by decide, by rfl⟩

/-- Claim C9 as amended: an unregistered name on the fixed allow-list takes
the captured path; when the child exits with status 0 the captured stdout
and then the captured stderr are echoed verbatim (each only when
non-empty) and success is reported; on a non-zero exit or a start failure
the error is returned and nothing is echoed.  The unregistered line
`squeue -u bob` takes this path. -/
theorem c9_captured_dispatch (registered : List GoStr) (cmd : Command)
    (h1 : registered.contains cmd.Name = false)
    (h2 : slurmCommands.contains cmd.Name = true) :
    dispatchPath registered cmd = .captured ∧
    (∀ out er : GoStr, registryExecute registered cmd (.exited 0 out er) =
      .system ⟨(if !out.isEmpty then [out] else []) ++
        (if !er.isEmpty then [er] else []), none⟩) ∧
    (∀ (code : Int) (out er : GoStr), code ≠ 0 →
      registryExecute registered cmd (.exited code out er) =
        .system ⟨[], some (.exitErr code)⟩) ∧
    registryExecute registered cmd .startFail = .system ⟨[], some .startErr⟩ := by
  have h1' : cmd.Name ∉ registered := by simpa using h1
  have h2' : cmd.Name ∈ slurmCommands := by simpa using h2
  refine ⟨?_, fun out er => ?_, fun code out er hc => ?_, ?_⟩
  · simp [dispatchPath, h1', h2']
  · simp [registryExecute, executeSystemCommand, clientExecute, goRunErr, h1', h2']
  · simp [registryExecute, executeSystemCommand, clientExecute, goRunErr, h1', h2', hc]
  · simp [registryExecute, executeSystemCommand, clientExecute, goRunErr, h1', h2']

/-- Witness for C9's amended theorem at the spec's `squeue -u bob` input. -/
theorem c9_captured_dispatch_witness :
    dispatchPath builtinNames ⟨gs "squeue", [], [(gs "-u", gs "bob")]⟩ = .captured ∧
    registryExecute builtinNames ⟨gs "squeue", [], [(gs "-u", gs "bob")]⟩
      (.exited 0 (gs "JOBS") (gs "warn")) = .system ⟨[gs "JOBS", gs "warn"], none⟩ ∧
    registryExecute builtinNames ⟨gs "squeue", [], [(gs "-u", gs "bob")]⟩
      (.exited 3 (gs "JOBS") []) = .system ⟨[], some (.exitErr 3)⟩ := by
  have h := c9_captured_dispatch builtinNames ⟨gs "squeue", [], [(gs "-u", gs "bob")]⟩
    (by rfl) (by rfl)
  exact ⟨h.1, (h.2.1 (gs "JOBS") (gs "warn")).trans (by rfl),
    h.2.2.1 3 (gs "JOBS") [] (by decide)⟩

/-! ## History invariants (claim C4) -/

theorem goodLog_tail (e : HistoryEntry) (l : List HistoryEntry)
    (h : goodLog (e :: l) = true) : goodLog l = true := by
  cases l with
  | nil => rfl
  | cons e' rest =>
      simp only [goodLog, Bool.and_eq_true] at h
      exact h.2

theorem goodLog_append (l : List HistoryEntry) (e : HistoryEntry)
    (hl : goodLog l = true) (he : e.Command ≠ [])
    (hlast : l.getLast?.map (·.Command) ≠ some e.Command) :
    goodLog (l ++ [e]) = true := by
  induction l with
  | nil => simpa [goodLog, List.isEmpty_iff] using he
  | cons x rest ih =>
      cases rest with
      | nil =>
          have hx : x.Command.isEmpty = false := by
            simpa [goodLog] using hl
          have hne : x.Command ≠ e.Command := by
            intro hc
            exact hlast (by simp [List.getLast?, hc])
          simp [goodLog, hx, hne, List.isEmpty_iff, he]
      | cons y rest' =>
          have h1 := hl
          simp only [goodLog, Bool.and_eq_true] at h1
          have ih' := ih h1.2 (by
            intro hc
            exact hlast (by rwa [List.getLast?_cons_cons]))
          simpa [goodLog, Bool.and_eq_true] using And.intro h1.1 (by
            simpa [goodLog] using ih')

theorem goodLog_drop : ∀ (l : List HistoryEntry) (k : Nat), goodLog l = true →
    goodLog (l.drop k) = true
  | _, 0, h => h
  | [], _ + 1, _ => rfl
  | x :: rest, k + 1, h => goodLog_drop rest k (goodLog_tail x rest h)

theorem getLast?_drop_of_lt (l : List HistoryEntry) (k : Nat) (hk : k < l.length) :
    (l.drop k).getLast? = l.getLast? := by
  rw [List.getLast?_eq_getElem?, List.getLast?_eq_getElem?, List.getElem?_drop,
    List.length_drop]
  congr 1
  omega

theorem historyAdd_eq (maxSize : Nat) (entries : List HistoryEntry)
    (cmd : GoStr) (ts : Int) (s : Bool) (d : Int) :
    historyAdd maxSize entries cmd ts s d =
      if (trimSpace cmd).isEmpty then entries
      else if entries.getLast?.map (·.Command) = some (trimSpace cmd) then entries
      else if maxSize < entries.length + 1 then
        (entries ++ [(⟨trimSpace cmd, ts, s, d⟩ : HistoryEntry)]).drop
          (entries.length + 1 - maxSize)
      else entries ++ [(⟨trimSpace cmd, ts, s, d⟩ : HistoryEntry)] := by
  unfold historyAdd
  simp [List.length_append]

theorem historyAdd_length (maxSize : Nat) (entries : List HistoryEntry)
    (cmd : GoStr) (ts : Int) (s : Bool) (d : Int)
    (hlen : entries.length ≤ maxSize) :
    (historyAdd maxSize entries cmd ts s d).length ≤ maxSize := by
  rw [historyAdd_eq]
  split_ifs with h1 h2 h3
  · exact hlen
  · exact hlen
  · simp only [List.length_drop, List.length_append, List.length_singleton]
    omega
  · simp only [List.length_append, List.length_singleton]
    omega

theorem historyAdd_inv (maxSize : Nat) (entries : List HistoryEntry)
    (cmd : GoStr) (ts : Int) (s : Bool) (d : Int)
    (hgood : goodLog entries = true) :
    goodLog (historyAdd maxSize entries cmd ts s d) = true := by
  rw [historyAdd_eq]
  split_ifs with h1 h2 h3
  · exact hgood
  · exact hgood
  · exact goodLog_drop _ _
      (goodLog_append entries _ hgood (by simpa [List.isEmpty_iff] using h1) h2)
  · exact goodLog_append entries _ hgood (by simpa [List.isEmpty_iff] using h1) h2

theorem historyLoad_length (maxSize : Nat) (content : GoStr) :
    (historyLoad maxSize content).length ≤ maxSize := by
  unfold historyLoad
  by_cases h : maxSize <
      ((splitLines content).filterMap fun line =>
        if (trimSpace line).isEmpty then none else parseHistoryLine (trimSpace line)).length
  · simp only [h, if_true, List.length_drop]
    omega
  · simp only [h, if_false]
    omega

theorem historyRun_inv_aux (maxSize : Nat) : ∀ (ops : List HistoryOp)
    (entries : List HistoryEntry), entries.length ≤ maxSize → goodLog entries = true →
    (∀ op ∈ ops, isAddOrClear op = true) →
    (ops.foldl (historyStep maxSize) entries).length ≤ maxSize ∧
      goodLog (ops.foldl (historyStep maxSize) entries) = true
  | [], entries, h1, h2, _ => ⟨h1, h2⟩
  | op :: rest, entries, h1, h2, hops => by
      have hop : isAddOrClear op = true := hops op (by simp)
      have hstep : (historyStep maxSize entries op).length ≤ maxSize ∧
          goodLog (historyStep maxSize entries op) = true := by
        cases op with
        | add c ts s d =>
            exact ⟨historyAdd_length maxSize entries c ts s d h1,
              historyAdd_inv maxSize entries c ts s d h2⟩
        | load content => simp [isAddOrClear] at hop
        | clear => exact ⟨by simp [historyStep], by simp [historyStep, goodLog]⟩
      exact historyRun_inv_aux maxSize rest _ hstep.1 hstep.2
        (fun op' h' => hops op' (by simp [h']))

theorem historyRun_length_aux (maxSize : Nat) : ∀ (ops : List HistoryOp)
    (entries : List HistoryEntry), entries.length ≤ maxSize →
    (ops.foldl (historyStep maxSize) entries).length ≤ maxSize
  | [], _, h1 => h1
  | op :: rest, entries, h1 => by
      have hstep : (historyStep maxSize entries op).length ≤ maxSize := by
        cases op with
        | add c ts s d => exact historyAdd_length maxSize entries c ts s d h1
        | load content => exact historyLoad_length maxSize content
        | clear => simp [historyStep]
      exact historyRun_length_aux maxSize rest _ hstep

theorem historyAdd_blank (maxSize : Nat) (entries : List HistoryEntry)
    (cmd : GoStr) (ts : Int) (s : Bool) (d : Int) (h : trimSpace cmd = []) :
    historyAdd maxSize entries cmd ts s d = entries := by
  unfold historyAdd
  simp [h]

theorem historyAdd_idem (maxSize : Nat) (entries : List HistoryEntry)
    (cmd cmd' : GoStr) (ts ts' : Int) (s s' : Bool) (d d' : Int)
    (h : trimSpace cmd' = trimSpace cmd) :
    historyAdd maxSize (historyAdd maxSize entries cmd ts s d) cmd' ts' s' d' =
      historyAdd maxSize entries cmd ts s d := by
  by_cases h1 : (trimSpace cmd).isEmpty = true
  · rw [historyAdd_blank maxSize entries cmd ts s d (by simpa [List.isEmpty_iff] using h1),
      historyAdd_blank maxSize entries cmd' ts' s' d'
        (by rw [h]; simpa [List.isEmpty_iff] using h1)]
  · by_cases h2 : entries.getLast?.map (·.Command) = some (trimSpace cmd)
    · have hfst : historyAdd maxSize entries cmd ts s d = entries := by
        rw [historyAdd_eq, if_neg (by simpa using h1), if_pos h2]
      rw [hfst, historyAdd_eq, h, if_neg (by simpa using h1), if_pos h2]
    · have hfst := historyAdd_eq maxSize entries cmd ts s d
      rw [if_neg (by simpa using h1), if_neg h2] at hfst
      by_cases h3 : maxSize = 0
      · -- everything is truncated away: both sides are the empty log
        have hl : historyAdd maxSize entries cmd ts s d = [] := by
          rw [hfst]
          subst h3
          simp [List.drop_eq_nil_iff]
        rw [hl, historyAdd_eq, h, if_neg (by simpa using h1)]
        subst h3
        simp [List.drop_eq_nil_iff]
      · -- the appended entry survives truncation, so the second add is a no-op
        have hlast : (historyAdd maxSize entries cmd ts s d).getLast?.map (·.Command) =
            some (trimSpace cmd) := by
          rw [hfst]
          split_ifs with h4
          · rw [getLast?_drop_of_lt _ _ (by
              simp only [List.length_append, List.length_singleton]
              omega)]
            simp [List.getLast?_concat]
          · simp [List.getLast?_concat]
        rw [historyAdd_eq, h, if_neg (by simpa using h1), if_pos hlast]

/-- Claim C4 counterexample: a single `Load` of a file containing an
empty-command line and two lines with identical commands produces a log
violating both the no-empty-command and the no-consecutive-duplicates
invariants — `Load` trusts the file's content. -/
theorem c4_history_invariant_counterexample :
    historyRun 10 [.load (gs "1|true|0|x\n2|true|0|x\n3|true|0|")] =
      [⟨gs "x", 1, true, 0⟩, ⟨gs "x", 2, true, 0⟩, ⟨[], 3, true, 0⟩] ∧
    goodLog [⟨gs "x", 1, true, 0⟩, ⟨gs "x", 2, true, 0⟩, ⟨[], 3, true, 0⟩] = false :=
  ⟨by rfl, by rfl⟩

/-- Claim C4 as amended: the `maxSize` bound holds for every sequence of
`Add`, `Load` and `Clear` operations; the no-empty-command and
no-consecutive-duplicates invariants hold for every sequence of `Add` and
`Clear` operations (`Load` can break them by reading a file that violates
them); a second consecutive `Add` with identical trimmed command text is a
no-op, and an `Add` of a blank command leaves the log unchanged. -/
theorem c4_history_invariants :
    (∀ (maxSize : Nat) (ops : List HistoryOp), (∀ op ∈ ops, isAddOrClear op = true) →
      (historyRun maxSize ops).length ≤ maxSize ∧
        goodLog (historyRun maxSize ops) = true) ∧
    (∀ (maxSize : Nat) (ops : List HistoryOp),
      (historyRun maxSize ops).length ≤ maxSize) ∧
    (∀ (maxSize : Nat) (entries : List HistoryEntry) (cmd cmd' : GoStr)
        (ts ts' : Int) (s s' : Bool) (d d' : Int), trimSpace cmd' = trimSpace cmd →
      historyAdd maxSize (historyAdd maxSize entries cmd ts s d) cmd' ts' s' d' =
        historyAdd maxSize entries cmd ts s d) ∧
    (∀ (maxSize : Nat) (entries : List HistoryEntry) (cmd : GoStr)
        (ts : Int) (s : Bool) (d : Int), trimSpace cmd = [] →
      historyAdd maxSize entries cmd ts s d = entries) :=
  ⟨fun maxSize ops hops => historyRun_inv_aux maxSize ops [] (by simp) rfl hops,
   fun maxSize ops => historyRun_length_aux maxSize ops [] (by simp),
   fun maxSize entries cmd cmd' ts ts' s s' d d' h =>
     historyAdd_idem maxSize entries cmd cmd' ts ts' s s' d d' h,
   fun maxSize entries cmd ts s d h => historyAdd_blank maxSize entries cmd ts s d h⟩

/-- Witness for C4 at concrete operation sequences. -/
theorem c4_history_invariants_witness :
    ((historyRun 2 [.add (gs "a") 0 true 0, .add (gs "b") 1 true 0,
        .add (gs "c") 2 true 0]).length ≤ 2 ∧
      goodLog (historyRun 2 [.add (gs "a") 0 true 0, .add (gs "b") 1 true 0,
        .add (gs "c") 2 true 0]) = true) ∧
    (historyRun 1 [.load (gs "1|true|0|x\n2|true|0|y")]).length ≤ 1 ∧
    historyAdd 5 (historyAdd 5 [] (gs "x") 0 true 0) (gs " x ") 1 false 2 =
      historyAdd 5 [] (gs "x") 0 true 0 ∧
    historyAdd 5 [] (gs "   ") 0 true 0 = [] := by
  have h := c4_history_invariants
  exact ⟨h.1 2 _ (by decide), h.2.1 1 _,
    h.2.2.1 5 [] (gs "x") (gs " x ") 0 1 true false 0 2 (by decide),
    h.2.2.2 5 [] (gs "   ") 0 true 0 (by decide)⟩

/-! ## Persisted-encoding round trip (claim C5): integer and boolean fields -/

theorem digitChar_facts (d : Nat) (hd : d < 10) :
    (Char.ofNat (48 + d)).isDigit = true ∧ isGoSpace (Char.ofNat (48 + d)) = false ∧
    Char.ofNat (48 + d) ≠ '|' ∧ Char.ofNat (48 + d) ≠ '\n' ∧
    Char.ofNat (48 + d) ≠ '\r' ∧ Char.ofNat (48 + d) ≠ '-' ∧
    Char.ofNat (48 + d) ≠ '+' ∧ (Char.ofNat (48 + d)).toNat = 48 + d := by
  interval_cases d <;> decide

theorem natCharsAux_digits : ∀ (fuel n : Nat), ∀ c ∈ natCharsAux fuel n,
    ∃ d, d < 10 ∧ c = Char.ofNat (48 + d)
  | 0, n => by simp [natCharsAux]
  | fuel + 1, n => by
      unfold natCharsAux
      by_cases h : n < 10
      · simp only [h, if_true, List.mem_singleton]
        intro c hc
        exact ⟨n, h, hc⟩
      · simp only [h, if_false]
        intro c hc
        rcases List.mem_append.mp hc with h' | h'
        · exact natCharsAux_digits fuel (n / 10) c h'
        · simp only [List.mem_singleton] at h'
          exact ⟨n % 10, Nat.mod_lt _ (by omega), h'⟩

theorem natChars_mem_facts (n : Nat) : ∀ c ∈ natChars n,
    c.isDigit = true ∧ isGoSpace c = false ∧ c ≠ '|' ∧ c ≠ '\n' ∧
    c ≠ '\r' ∧ c ≠ '-' ∧ c ≠ '+' := by
  intro c hc
  obtain ⟨d, hd, rfl⟩ := natCharsAux_digits (n + 1) n c hc
  have h := digitChar_facts d hd
  exact ⟨h.1, h.2.1, h.2.2.1, h.2.2.2.1, h.2.2.2.2.1, h.2.2.2.2.2.1, h.2.2.2.2.2.2.1⟩

theorem natChars_ne_nil (n : Nat) : natChars n ≠ [] := by
  unfold natChars natCharsAux
  by_cases h : n < 10 <;> simp [h]

theorem natCharsAux_foldl : ∀ (fuel n : Nat), n < 10 ^ fuel → ∀ acc : Nat,
    (natCharsAux fuel n).foldl (fun a c => a * 10 + (c.toNat - 48)) acc =
      acc * 10 ^ (natCharsAux fuel n).length + n
  | 0, n => by
      intro h acc
      simp only [natCharsAux, List.foldl_nil, List.length_nil, pow_zero, mul_one]
      omega
  | fuel + 1, n => by
      intro h acc
      unfold natCharsAux
      by_cases h10 : n < 10
      · simp only [h10, if_true, List.foldl_cons, List.foldl_nil, List.length_singleton,
          pow_one]
        rw [(digitChar_facts n h10).2.2.2.2.2.2.2]
        omega
      · simp only [h10, if_false]
        have hdiv : n / 10 < 10 ^ fuel := by
          rw [pow_succ, mul_comm] at h
          exact Nat.div_lt_of_lt_mul h
        rw [List.foldl_append, natCharsAux_foldl fuel (n / 10) hdiv acc]
        simp only [List.foldl_cons, List.foldl_nil, List.length_append,
          List.length_singleton]
        rw [(digitChar_facts (n % 10) (Nat.mod_lt _ (by omega))).2.2.2.2.2.2.2]
        rw [pow_succ, ← Nat.mul_assoc]
        have := Nat.div_add_mod n 10
        generalize 10 ^ (natCharsAux fuel (n / 10)).length = p
        omega

theorem digitsFold_natChars (n : Nat) : digitsFold (natChars n) = n := by
  unfold digitsFold natChars
  rw [natCharsAux_foldl (n + 1) n
    (lt_of_lt_of_le (Nat.lt_pow_self (by norm_num) n)
      (Nat.pow_le_pow_right (by norm_num) (Nat.le_succ n)))]
  simp

theorem takeWhile_all {p : Char → Bool} : ∀ l : GoStr, (∀ c ∈ l, p c = true) →
    l.takeWhile p = l
  | [], _ => rfl
  | c :: rest, h => by
      rw [List.takeWhile_cons]
      simp only [h c (by simp), if_true]
      rw [takeWhile_all rest fun c' hc' => h c' (by simp [hc'])]

theorem trimLeft_eq_self (l : GoStr) (h : ∀ c, l.head? = some c → isGoSpace c = false) :
    trimLeft l = l := by
  cases l with
  | nil => rfl
  | cons c rest =>
      unfold trimLeft
      rw [List.dropWhile_cons]
      simp [h c rfl]

theorem head?_mem {l : GoStr} {c : Char} (h : l.head? = some c) : c ∈ l := by
  cases l with
  | nil => simp at h
  | cons x rest =>
      simp only [List.head?_cons, Option.some.injEq] at h
      simp [h]

theorem parseGoIntSign_no_sign (l : GoStr)
    (h : ∀ c, l.head? = some c → (c ≠ '-' ∧ c ≠ '+')) :
    parseGoIntSign l = (false, l) := by
  cases l with
  | nil => rfl
  | cons c rest =>
      have hc := h c rfl
      simp only [parseGoIntSign]
      rw [if_neg hc.1, if_neg hc.2]

theorem parseGoInt_natChars (n : Nat) : parseGoInt (natChars n) = some (n : Int) := by
  have hmem := natChars_mem_facts n
  unfold parseGoInt
  rw [trimLeft_eq_self _ fun c hc => (hmem c (head?_mem hc)).2.1]
  rw [parseGoIntSign_no_sign _ fun c hc =>
    ⟨(hmem c (head?_mem hc)).2.2.2.2.2.1, (hmem c (head?_mem hc)).2.2.2.2.2.2⟩]
  simp only []
  rw [takeWhile_all (natChars n) fun c' hc' => (hmem c' hc').1]
  rw [if_neg (by simpa using natChars_ne_nil n)]
  simp [digitsFold_natChars]

theorem parseGoInt_intChars (n : Int) : parseGoInt (intChars n) = some n := by
  unfold intChars
  by_cases h : n < 0
  · simp only [h, if_true]
    have hmem := natChars_mem_facts (-n).toNat
    unfold parseGoInt
    rw [trimLeft_eq_self _ (by
      intro c' hc'
      simp only [List.head?_cons, Option.some.injEq] at hc'
      rw [← hc']
      decide)]
    rw [show parseGoIntSign ('-' :: natChars (-n).toNat) =
      (true, natChars (-n).toNat) from by simp [parseGoIntSign]]
    simp only []
    rw [takeWhile_all (natChars (-n).toNat) fun c' hc' => (hmem c' hc').1]
    rw [if_neg (by simpa using natChars_ne_nil (-n).toNat)]
    rw [digitsFold_natChars]
    simp only [if_true, Option.some.injEq]
    omega
  · simp only [h, if_false]
    rw [parseGoInt_natChars]
    congr 1
    exact Int.toNat_of_nonneg (by omega)

theorem parseGoBool_boolChars (b : Bool) : parseGoBool (boolChars b) = some b := by
  cases b <;> decide

/-! ## Persisted-encoding round trip (claim C5): line splitting -/

theorem breakAt_append (sep : Char) : ∀ (a r : GoStr), sep ∉ a →
    breakAt sep (a ++ sep :: r) = some (a, r)
  | [], r, _ => by simp [breakAt]
  | c :: rest, r, h => by
      have hc : c ≠ sep := fun e => h (by simp [e])
      have ih := breakAt_append sep rest r fun hm => h (by simp [hm])
      simp [breakAt, hc, ih]

theorem splitNgo4_encode (a b c d : GoStr) (ha : '|' ∉ a) (hb : '|' ∉ b)
    (hc : '|' ∉ c) :
    splitNgo '|' 4 (a ++ '|' :: (b ++ '|' :: (c ++ '|' :: d))) = [a, b, c, d] := by
  show splitNgo '|' (2 + 2) _ = _
  rw [splitNgo, breakAt_append '|' a _ ha]
  show _ :: splitNgo '|' (1 + 2) _ = _
  rw [splitNgo, breakAt_append '|' b _ hb]
  show _ :: _ :: splitNgo '|' (0 + 2) _ = _
  rw [splitNgo, breakAt_append '|' c _ hc]
  rfl

theorem splitOn_append (sep : Char) : ∀ (a r : GoStr), sep ∉ a →
    splitOn sep (a ++ sep :: r) = a :: splitOn sep r
  | [], r, _ => by simp [splitOn]
  | c :: rest, r, h => by
      have hc : c ≠ sep := fun e => h (by simp [e])
      have ih := splitOn_append sep rest r fun hm => h (by simp [hm])
      have hstep : splitOn sep (c :: (rest ++ sep :: r)) =
          match splitOn sep (rest ++ sep :: r) with
          | [] => [[c]]
          | t :: ts => (c :: t) :: ts := by
        conv_lhs => rw [splitOn]
        rw [if_neg hc]
      rw [List.cons_append, hstep, ih]

theorem splitOn_newline_flatten : ∀ bodies : List GoStr, (∀ b ∈ bodies, '\n' ∉ b) →
    splitOn '\n' ((bodies.map fun b => b ++ ['\n']).flatten) = bodies ++ [[]]
  | [], _ => by simp [splitOn]
  | b :: rest, h => by
      have hb : '\n' ∉ b := h b (by simp)
      have ih := splitOn_newline_flatten rest fun b' hb' => h b' (by simp [hb'])
      simp only [List.map_cons, List.flatten_cons, List.append_assoc,
        List.singleton_append]
      rw [splitOn_append '\n' b _ hb, ih]
      simp

theorem dropCR_eq_self (l : GoStr) (h : l.getLast? ≠ some '\r') : dropCR l = l := by
  unfold dropCR
  rw [if_neg h]

theorem trimSpace_eq_self (l : GoStr)
    (h1 : ∀ c, l.head? = some c → isGoSpace c = false)
    (h2 : ∀ c, l.getLast? = some c → isGoSpace c = false) :
    trimSpace l = l := by
  unfold trimSpace
  rw [trimLeft_eq_self l h1]
  have hr : l.reverse.dropWhile isGoSpace = l.reverse := by
    cases hl : l.reverse with
    | nil => simp
    | cons c rest =>
        rw [List.dropWhile_cons]
        have hc : l.getLast? = some c := by
          rw [← List.head?_reverse, hl, List.head?_cons]
        simp [h2 c hc]
  rw [hr, List.reverse_reverse]

theorem intChars_ne_nil (n : Int) : intChars n ≠ [] := by
  unfold intChars
  by_cases h : n < 0 <;> simp [h, natChars_ne_nil]

theorem intChars_chars (n : Int) : ∀ c ∈ intChars n,
    isGoSpace c = false ∧ c ≠ '|' ∧ c ≠ '\n' := by
  intro c hc
  unfold intChars at hc
  by_cases h : n < 0
  · simp only [h, if_true, List.mem_cons] at hc
    rcases hc with rfl | hc
    · exact ⟨by decide, by decide, by decide⟩
    · have hf := natChars_mem_facts _ c hc
      exact ⟨hf.2.1, hf.2.2.1, hf.2.2.2.1⟩
  · simp only [h, if_false] at hc
    have hf := natChars_mem_facts _ c hc
    exact ⟨hf.2.1, hf.2.2.1, hf.2.2.2.1⟩

theorem boolChars_chars (b : Bool) : ∀ c ∈ boolChars b,
    isGoSpace c = false ∧ c ≠ '|' ∧ c ≠ '\n' := by
  cases b <;> decide

theorem encodeEntryBody_mem (e : HistoryEntry) :
    ∀ c ∈ encodeEntryBody e, c ∈ intChars e.Timestamp ∨ c ∈ boolChars e.Success ∨
      c ∈ intChars e.Duration ∨ c = '|' ∨ c ∈ e.Command := by
  intro c hc
  unfold encodeEntryBody at hc
  simp only [List.mem_append, List.mem_cons] at hc
  tauto

theorem encodeEntryBody_no_newline (e : HistoryEntry) (h : '\n' ∉ e.Command) :
    '\n' ∉ encodeEntryBody e := by
  intro hc
  rcases encodeEntryBody_mem e '\n' hc with h1 | h1 | h1 | h1 | h1
  · exact (intChars_chars _ _ h1).2.2 rfl
  · exact (boolChars_chars _ _ h1).2.2 rfl
  · exact (intChars_chars _ _ h1).2.2 rfl
  · exact absurd h1 (by decide)
  · exact h h1

theorem encodeEntryBody_head (e : HistoryEntry) :
    ∀ c, (encodeEntryBody e).head? = some c → isGoSpace c = false := by
  intro c hc
  unfold encodeEntryBody at hc
  obtain ⟨x, xs, hx⟩ := List.exists_cons_of_ne_nil (intChars_ne_nil e.Timestamp)
  rw [hx] at hc
  simp only [List.cons_append, List.head?_cons, Option.some.injEq] at hc
  subst hc
  exact (intChars_chars e.Timestamp x (by rw [hx]; exact List.mem_cons_self x xs)).1

theorem getLast?_cons_append (x : Char) (l : GoStr) (hl : l ≠ []) :
    (x :: l).getLast? = l.getLast? := by
  rw [show x :: l = [x] ++ l from rfl, List.getLast?_append_of_ne_nil _ hl]

theorem encodeEntryBody_last (e : HistoryEntry)
    (h : ∀ c, e.Command.getLast? = some c → isGoSpace c = false) :
    ∀ c, (encodeEntryBody e).getLast? = some c → isGoSpace c = false := by
  intro c hc
  unfold encodeEntryBody at hc
  rw [List.getLast?_append_cons,
    getLast?_cons_append _ _ (by simp),
    List.getLast?_append_cons,
    getLast?_cons_append _ _ (by simp),
    List.getLast?_append_cons] at hc
  cases hcmd : e.Command with
  | nil =>
      rw [hcmd] at hc
      simp only [List.getLast?_singleton, Option.some.injEq] at hc
      subst hc
      decide
  | cons y ys =>
      rw [hcmd, getLast?_cons_append _ _ (by simp)] at hc
      exact h c (by rw [hcmd]; exact hc)

theorem encodeEntryBody_ne_nil (e : HistoryEntry) : encodeEntryBody e ≠ [] := by
  unfold encodeEntryBody
  obtain ⟨x, xs, hx⟩ := List.exists_cons_of_ne_nil (intChars_ne_nil e.Timestamp)
  rw [hx]
  simp

theorem parseHistoryLine_encode (e : HistoryEntry) :
    parseHistoryLine (encodeEntryBody e) = some e := by
  unfold parseHistoryLine encodeEntryBody
  rw [splitNgo4_encode _ _ _ _
    (fun hm => (intChars_chars _ _ hm).2.1 rfl)
    (fun hm => (boolChars_chars _ _ hm).2.1 rfl)
    (fun hm => (intChars_chars _ _ hm).2.1 rfl)]
  simp [parseGoInt_intChars, parseGoBool_boolChars]

theorem filterMap_id_of {f : HistoryEntry → Option HistoryEntry} :
    ∀ l : List HistoryEntry, (∀ e ∈ l, f e = some e) → l.filterMap f = l
  | [], _ => rfl
  | e :: rest, h => by
      rw [List.filterMap_cons, h e (by simp),
        filterMap_id_of rest fun e' he' => h e' (by simp [he'])]

theorem splitLines_save (entries : List HistoryEntry)
    (hnl : ∀ e ∈ entries, '\n' ∉ encodeEntryBody e)
    (hcr : ∀ e ∈ entries, (encodeEntryBody e).getLast? ≠ some '\r') :
    splitLines (historySave entries) = entries.map encodeEntryBody := by
  unfold splitLines historySave
  rw [show (entries.map fun e => encodeEntryBody e ++ ['\n']) =
    ((entries.map encodeEntryBody).map fun b => b ++ ['\n']) from
      (List.map_map (fun b : GoStr => b ++ ['\n']) encodeEntryBody entries).symm]
  rw [splitOn_newline_flatten _ (by
    intro b hb
    obtain ⟨e, he, rfl⟩ := List.mem_map.mp hb
    exact hnl e he)]
  simp only []
  rw [List.getLast?_concat, if_pos rfl, List.dropLast_concat]
  have hmapcr : (List.map encodeEntryBody entries).map dropCR =
      (List.map encodeEntryBody entries).map id :=
    List.map_congr_left (by
      intro b hb
      obtain ⟨e, he, rfl⟩ := List.mem_map.mp hb
      exact dropCR_eq_self _ (hcr e he))
  rw [hmapcr, List.map_id]

/-- Claim C5 counterexample: a history log whose single command `x ` (with
a trailing space) contains no newline and fits `maxSize` does not survive
`Save` followed by `Load` — the loader trims each line, so the command
comes back as `x`. -/
theorem c5_roundtrip_counterexample :
    historyLoad 10 (historySave [⟨gs "x ", 5, true, 7⟩]) ≠ [⟨gs "x ", 5, true, 7⟩] ∧
    (gs "x ").contains '\n' = false ∧
    ([(⟨gs "x ", 5, true, 7⟩ : HistoryEntry)]).length ≤ 10 ∧
    historyLoad 10 (historySave [⟨gs "x ", 5, true, 7⟩]) = [⟨gs "x", 5, true, 7⟩] :=
  ⟨by decide, by rfl, by decide, by rfl⟩

/-- Claim C5 as amended: for every history log of at most `maxSize` entries
whose commands contain no newline *and do not end in whitespace*, `Save`
followed by a fresh `Load` on the same content reproduces exactly the same
ordered sequence of entries — command, success flag, nanosecond duration
and second-precision timestamp — and a `|` byte inside a command survives
because the decoder takes everything after the third `|`. -/
theorem c5_save_load_roundtrip (maxSize : Nat) (entries : List HistoryEntry)
    (hlen : entries.length ≤ maxSize)
    (hok : ∀ e ∈ entries, roundTrippable e.Command = true) :
    historyLoad maxSize (historySave entries) = entries := by
  have hok' : ∀ e ∈ entries, '\n' ∉ e.Command ∧
      (∀ c, e.Command.getLast? = some c → isGoSpace c = false) := by
    intro e he
    have h := hok e he
    unfold roundTrippable at h
    simp only [Bool.and_eq_true, Bool.not_eq_true'] at h
    refine ⟨by simpa using h.1, ?_⟩
    intro c hc
    have h2 := h.2
    rw [hc] at h2
    simpa using h2
  have hnl : ∀ e ∈ entries, '\n' ∉ encodeEntryBody e := fun e he =>
    encodeEntryBody_no_newline e (hok' e he).1
  have hcr : ∀ e ∈ entries, (encodeEntryBody e).getLast? ≠ some '\r' := by
    intro e he hc
    have hf := encodeEntryBody_last e (hok' e he).2 '\r' hc
    rw [show isGoSpace '\r' = true from by decide] at hf
    simp at hf
  unfold historyLoad
  rw [splitLines_save entries hnl hcr]
  rw [List.filterMap_map]
  rw [show (fun line => if (trimSpace line).isEmpty = true then none
      else parseHistoryLine (trimSpace line)) ∘ encodeEntryBody = fun e =>
      if (trimSpace (encodeEntryBody e)).isEmpty = true then none
      else parseHistoryLine (trimSpace (encodeEntryBody e)) from rfl]
  rw [filterMap_id_of entries (by
    intro e he
    rw [trimSpace_eq_self _ (encodeEntryBody_head e)
      (encodeEntryBody_last e (hok' e he).2)]
    rw [if_neg (by simpa using encodeEntryBody_ne_nil e)]
    exact parseHistoryLine_encode e)]
  rw [if_neg (by omega)]

/-- Witness for C5's amended round trip, with a `|` inside a command and a
negative timestamp. -/
theorem c5_save_load_roundtrip_witness :
    historyLoad 5 (historySave [⟨gs "ls -la", 100, true, 5000⟩,
      ⟨gs "a|b", -3, false, 0⟩]) =
      [⟨gs "ls -la", 100, true, 5000⟩, ⟨gs "a|b", -3, false, 0⟩] :=
  c5_save_load_roundtrip 5 _ (by decide) (by decide)

/-! ## Option-to-job-parameters projection (claim C10) -/

theorem parseIntGoAux_bad : ∀ (s : GoStr) (acc : Int),
    (∃ c ∈ s, ¬('0' ≤ c ∧ c ≤ '9')) → parseIntGoAux s acc = 0
  | [], _, h => by simp at h
  | c :: rest, acc, h => by
      by_cases hc : '0' ≤ c ∧ c ≤ '9'
      · obtain ⟨c', hc', hbad⟩ := h
        rcases List.mem_cons.mp hc' with rfl | hmem
        · exact absurd hc hbad
        · unfold parseIntGoAux
          rw [if_pos hc]
          exact parseIntGoAux_bad rest _ ⟨c', hmem, hbad⟩
      · unfold parseIntGoAux
        rw [if_neg hc]

theorem parseIntGo_of_not_digits (s : GoStr) (h : decimalDigits s = false) :
    parseIntGo s = 0 := by
  unfold decimalDigits at h
  by_cases hs : s = []
  · subst hs; rfl
  · have hall : s.all (fun c => decide ('0' ≤ c) && decide (c ≤ '9')) = false := by
      rcases Bool.eq_false_or_eq_true (s.all fun c => decide ('0' ≤ c) && decide (c ≤ '9'))
        with hh | hh
      · rw [hh] at h
        simp [List.isEmpty_iff, hs] at h
      · exact hh
    obtain ⟨c, hcmem, hcbad⟩ := by
      simpa using List.all_eq_false.mp hall
    exact parseIntGoAux_bad s 0 ⟨c, hcmem, by simpa using hcbad⟩

theorem applyJobOption_recognized_extra (j : JobOptions) (k v : GoStr)
    (hk : recognizedJobOpt k = true) :
    (applyJobOption j k v).ExtraArgs = j.ExtraArgs := by
  simp only [recognizedJobOpt, Bool.or_eq_true, decide_eq_true_eq, or_assoc] at hk
  rcases hk with rfl|rfl|rfl|rfl|rfl|rfl|rfl|rfl|rfl|rfl|rfl|rfl|rfl|rfl|rfl|rfl|
    rfl|rfl|rfl|rfl <;>
    simp +decide [applyJobOption, apply_ite (JobOptions.ExtraArgs)]

theorem applyJobOption_unrecognized (j : JobOptions) (k v : GoStr)
    (hk : recognizedJobOpt k = false) :
    applyJobOption j k v =
      { j with ExtraArgs := j.ExtraArgs ++ (if !v.isEmpty then [k, v] else [k]) } := by
  simp only [recognizedJobOpt, Bool.or_eq_false_iff, decide_eq_false_iff_not,
    and_assoc] at hk
  obtain ⟨h1, h2, h3, h4, h5, h6, h7, h8, h9, h10, h11, h12, h13, h14, h15, h16,
    h17, h18, h19, h20⟩ := hk
  unfold applyJobOption
  rw [if_neg (by simp [h1, h2]), if_neg (by simp [h3, h4]), if_neg (by simp [h5, h6]),
    if_neg (by simp [h7, h8]), if_neg h9, if_neg (by simp [h10, h11]), if_neg h12,
    if_neg (by simp [h13, h14]), if_neg (by simp [h15, h16]),
    if_neg (by simp [h17, h18]), if_neg (by simp [h19, h20])]
  by_cases hv : v.isEmpty <;> simp [hv]

theorem applyJobOption_ExtraArgs (j : JobOptions) (k v : GoStr) :
    (applyJobOption j k v).ExtraArgs = j.ExtraArgs ++ extraArgsOf (k, v) := by
  by_cases hk : recognizedJobOpt k = true
  · rw [applyJobOption_recognized_extra j k v hk]
    unfold extraArgsOf
    rw [if_pos hk]
    simp
  · have hk' : recognizedJobOpt k = false := by simpa using hk
    rw [applyJobOption_unrecognized j k v hk']
    by_cases hv : v.isEmpty = true <;> simp [extraArgsOf, hk', hv]

theorem applyJobOption_Nodes (j : JobOptions) (k v : GoStr)
    (h : (k = gs "-N" ∨ k = gs "--nodes") → parseIntGo v ≤ 0) :
    (applyJobOption j k v).Nodes = j.Nodes := by
  by_cases hk : recognizedJobOpt k = true
  · simp only [recognizedJobOpt, Bool.or_eq_true, decide_eq_true_eq, or_assoc] at hk
    rcases hk with rfl|rfl|rfl|rfl|rfl|rfl|rfl|rfl|rfl|rfl|rfl|rfl|rfl|rfl|rfl|rfl|
      rfl|rfl|rfl|rfl <;>
      simp +decide [applyJobOption, apply_ite (JobOptions.Nodes)] <;>
      (intro hpos
       have hle := h (by simp)
       omega)
  · have hk' : recognizedJobOpt k = false := by simpa using hk
    rw [applyJobOption_unrecognized j k v hk']

theorem applyJobOption_CPUs (j : JobOptions) (k v : GoStr)
    (h : (k = gs "-c" ∨ k = gs "--cpus-per-task") → parseIntGo v ≤ 0) :
    (applyJobOption j k v).CPUs = j.CPUs := by
  by_cases hk : recognizedJobOpt k = true
  · simp only [recognizedJobOpt, Bool.or_eq_true, decide_eq_true_eq, or_assoc] at hk
    rcases hk with rfl|rfl|rfl|rfl|rfl|rfl|rfl|rfl|rfl|rfl|rfl|rfl|rfl|rfl|rfl|rfl|
      rfl|rfl|rfl|rfl <;>
      simp +decide [applyJobOption, apply_ite (JobOptions.CPUs)] <;>
      (intro hpos
       have hle := h (by simp)
       omega)
  · have hk' : recognizedJobOpt k = false := by simpa using hk
    rw [applyJobOption_unrecognized j k v hk']

theorem parseJobOptions_ExtraArgs_aux : ∀ (options : List (GoStr × GoStr))
    (j : JobOptions),
    (options.foldl (fun j kv => applyJobOption j kv.1 kv.2) j).ExtraArgs =
      j.ExtraArgs ++ (options.map extraArgsOf).flatten
  | [], j => by simp
  | kv :: rest, j => by
      rw [List.foldl_cons, parseJobOptions_ExtraArgs_aux rest, applyJobOption_ExtraArgs]
      simp

theorem parseJobOptions_Nodes_aux : ∀ (options : List (GoStr × GoStr)) (j : JobOptions),
    (∀ kv ∈ options, (kv.1 = gs "-N" ∨ kv.1 = gs "--nodes") → parseIntGo kv.2 ≤ 0) →
    (options.foldl (fun j kv => applyJobOption j kv.1 kv.2) j).Nodes = j.Nodes
  | [], j, _ => rfl
  | kv :: rest, j, h => by
      rw [List.foldl_cons,
        parseJobOptions_Nodes_aux rest _ fun kv' h' => h kv' (by simp [h']),
        applyJobOption_Nodes j kv.1 kv.2 (h kv (by simp))]

theorem parseJobOptions_CPUs_aux : ∀ (options : List (GoStr × GoStr)) (j : JobOptions),
    (∀ kv ∈ options, (kv.1 = gs "-c" ∨ kv.1 = gs "--cpus-per-task") →
      parseIntGo kv.2 ≤ 0) →
    (options.foldl (fun j kv => applyJobOption j kv.1 kv.2) j).CPUs = j.CPUs
  | [], j, _ => rfl
  | kv :: rest, j, h => by
      rw [List.foldl_cons,
        parseJobOptions_CPUs_aux rest _ fun kv' h' => h kv' (by simp [h']),
        applyJobOption_CPUs j kv.1 kv.2 (h kv (by simp))]

/-- Claim C10: in the option-to-job-parameters projection, a recognized
numeric option (`-N`/`--nodes`, `-c`/`--cpus-per-task`) whose value is not
a non-empty decimal-digit string or parses to zero is discarded entirely —
the `Nodes`/`CPUs` field stays zero and no recognized key ever reaches
`ExtraArgs` — while `ExtraArgs` is exactly the in-order contribution of
the unrecognized options, each preserved with its value when non-empty. -/
theorem c10_job_option_projection :
    (∀ options : List (GoStr × GoStr),
      ((∀ kv ∈ options, (kv.1 = gs "-N" ∨ kv.1 = gs "--nodes") →
          decimalDigits kv.2 = false ∨ parseIntGo kv.2 = 0) →
        (parseJobOptions options).Nodes = 0) ∧
      ((∀ kv ∈ options, (kv.1 = gs "-c" ∨ kv.1 = gs "--cpus-per-task") →
          decimalDigits kv.2 = false ∨ parseIntGo kv.2 = 0) →
        (parseJobOptions options).CPUs = 0) ∧
      (parseJobOptions options).ExtraArgs = (options.map extraArgsOf).flatten) ∧
    (∀ k v : GoStr, recognizedJobOpt k = true → extraArgsOf (k, v) = []) ∧
    (∀ k v : GoStr, recognizedJobOpt k = false →
      extraArgsOf (k, v) = if v ≠ [] then [k, v] else [k]) := by
  refine ⟨fun options => ⟨fun h => ?_, fun h => ?_, ?_⟩, fun k v hk => ?_, fun k v hk => ?_⟩
  · unfold parseJobOptions
    rw [parseJobOptions_Nodes_aux options jobOptions0 (by
      intro kv hkv hk
      rcases h kv hkv hk with hd | hz
      · rw [parseIntGo_of_not_digits _ hd]
      · omega)]
    rfl
  · unfold parseJobOptions
    rw [parseJobOptions_CPUs_aux options jobOptions0 (by
      intro kv hkv hk
      rcases h kv hkv hk with hd | hz
      · rw [parseIntGo_of_not_digits _ hd]
      · omega)]
    rfl
  · unfold parseJobOptions
    rw [parseJobOptions_ExtraArgs_aux options jobOptions0]
    rfl
  · unfold extraArgsOf
    rw [if_pos hk]
  · unfold extraArgsOf
    rw [if_neg (by simp [hk])]
    by_cases hv : v = [] <;> simp [hv, List.isEmpty_iff]

/-- Witness for C10 at a concrete options map mixing discarded numeric
options and preserved unknown ones. -/
theorem c10_job_option_projection_witness :
    (parseJobOptions [(gs "-N", gs "abc"), (gs "--nodes", gs "0"),
      (gs "-c", gs "1x"), (gs "-x", gs "y"), (gs "--flag", [])]).Nodes = 0 ∧
    (parseJobOptions [(gs "-N", gs "abc"), (gs "--nodes", gs "0"),
      (gs "-c", gs "1x"), (gs "-x", gs "y"), (gs "--flag", [])]).CPUs = 0 ∧
    (parseJobOptions [(gs "-N", gs "abc"), (gs "--nodes", gs "0"),
      (gs "-c", gs "1x"), (gs "-x", gs "y"), (gs "--flag", [])]).ExtraArgs =
      ([[], [], [], [gs "-x", gs "y"], [gs "--flag"]] : List (List GoStr)).flatten := by
  have h := c10_job_option_projection
  exact ⟨(h.1 _).1 (by decide), (h.1 _).2.1 (by decide),
    ((h.1 _).2.2).trans (by rfl)⟩

end Slsh
